import Mathlib

/-!
Verification of the apple-on-device-ai repository's specification against its
source. The embedding covers:

* the Swift JSON-Schema compiler (`convertJSONSchemaToDynamic`,
  `buildSchemasFromJson` in `src/apple-ai.swift`),
* the Swift streaming delta loop (`appleAIGenerateResponseStream`),
* the Swift transcript converter (`convertMessagesToTranscript`),
* the TypeScript pull-based stream bridge (`streamResponse` in
  `src/apple-ai.ts`),
* the TypeScript tool-call extractor (`parseToolCalls` in
  `src/apple-ai-chat-model.ts`).

JSON documents are modelled as an inductive `Json` tree. A JSON object parsed
by Swift's `JSONSerialization` becomes a `[String: Any]` hash dictionary whose
iteration order is unspecified; we therefore model a parsed object as an
association list whose order stands for the dictionary's iteration order — an
arbitrary permutation of the document's key order.

Recursive functions over `Json` that the source writes as unbounded recursion
are embedded with an explicit fuel argument (structural recursion on `Nat`, so
the kernel can evaluate them); the exported wrappers supply fuel derived from
an explicit size function, which strictly bounds the recursion depth, so the
fuel-exhaustion branch is unreachable from the wrappers.
-/

/-- A JSON value. Numbers keep their source lexeme (the claims never depend on
numeric evaluation); object fields are an ordered association list, the order
modelling the Swift dictionary's (unspecified) iteration order. -/
inductive Json where
  | null
  | bool (b : Bool)
  | num (lexeme : String)
  | str (s : String)
  | arr (elems : List Json)
  | obj (fields : List (String × Json))

mutual

/-- Node count of a JSON tree; used as a fuel bound for the embedded recursive
functions. -/
def jsonSize : Json → Nat
  | Json.null => 1
  | Json.bool _ => 1
  | Json.num _ => 1
  | Json.str _ => 1
  | Json.arr elems => 1 + jsonSizeList elems
  | Json.obj fields => 1 + jsonSizeFields fields

/-- Node count of a list of JSON values. -/
def jsonSizeList : List Json → Nat
  | [] => 0
  | elem :: more => jsonSize elem + jsonSizeList more

/-- Node count of a JSON object's field list. -/
def jsonSizeFields : List (String × Json) → Nat
  | [] => 0
  | (_, value) :: more => jsonSize value + jsonSizeFields more

end

/-- Dictionary lookup: `dict[key]` on a parsed JSON object (keys are unique in
objects produced by a JSON parser, so first-match lookup is the map lookup). -/
def lookupField : List (String × Json) → String → Option Json
  | [], _ => none
  | (k, v) :: rest, key => if k = key then some v else lookupField rest key

/-- `dict[key] as? String`. -/
def lookupString (kvs : List (String × Json)) (key : String) : Option String :=
  match lookupField kvs key with
  | some (Json.str s) => some s
  | _ => none

/-- `dict[key] as? [String: Any]`. -/
def lookupObj (kvs : List (String × Json)) (key : String) :
    Option (List (String × Json)) :=
  match lookupField kvs key with
  | some (Json.obj fields) => some fields
  | _ => none

/-- Element loop of the `as? [String]` cast. -/
def asStringListAux : List Json → Option (List String)
  | [] => some []
  | Json.str s :: rest => (asStringListAux rest).map (s :: ·)
  | _ => none

/-- Casting a JSON value to `[String]`: succeeds iff every element is a
string. -/
def asStringList : Json → Option (List String)
  | Json.arr elems => asStringListAux elems
  | _ => none

/-- `dict[key] as? [String]`. -/
def lookupStringList (kvs : List (String × Json)) (key : String) :
    Option (List String) :=
  (lookupField kvs key).bind asStringList

/-- Element loop of the `as? [[String: Any]]` cast. -/
def asObjListAux : List Json → Option (List (List (String × Json)))
  | [] => some []
  | Json.obj fields :: rest => (asObjListAux rest).map (fields :: ·)
  | _ => none

/-- Casting a JSON value to `[[String: Any]]`: succeeds iff every element is
an object. -/
def asObjList : Json → Option (List (List (String × Json)))
  | Json.arr elems => asObjListAux elems
  | _ => none

/-- `dict[key] as? [[String: Any]]`. -/
def lookupObjList (kvs : List (String × Json)) (key : String) :
    Option (List (List (String × Json))) :=
  (lookupField kvs key).bind asObjList

/-- Decimal value of a digit run. -/
def digitsVal (ds : List Char) : Int :=
  Int.ofNat (ds.foldl (fun acc c => 10 * acc + (c.toNat - 48)) 0)

/-- A purely integral JSON number lexeme (optional minus, digits only), the
values for which Swift's `as? Int` bridge succeeds; fractional or exponent
lexemes are approximated as failing the cast. -/
def lexToInt (lexeme : String) : Option Int :=
  match lexeme.data with
  | [] => none
  | '-' :: ds => if ds ≠ [] ∧ ds.all Char.isDigit then some (-(digitsVal ds)) else none
  | ds => if ds.all Char.isDigit then some (digitsVal ds) else none

/-- `dict[key] as? Int`. -/
def lookupInt (kvs : List (String × Json)) (key : String) : Option Int :=
  (lookupField kvs key).bind (fun v =>
    match v with
    | Json.num lexeme => lexToInt lexeme
    | _ => none)

/-- The name carried by a `DynamicGenerationSchema` node built with
`name: name ?? UUID().uuidString`: either the given string, or a fresh UUID
(modelled as the opaque marker `uuid`, which never collides with any given
name). -/
inductive NameV where
  | given (s : String)
  | uuid
  deriving DecidableEq, Repr

/-- The tree of `DynamicGenerationSchema` values the Swift compiler builds; one
constructor per initializer used by the source:
`init(referenceTo:)`, `init(type:)` for `String`/`Double`/`Int`/`Bool`,
`init(arrayOf:minimumElements:maximumElements:)`,
`init(name:description:anyOf: [String])` (string-choice overload),
`init(name:description:anyOf: [DynamicGenerationSchema])`, and
`init(name:description:properties:)` whose properties are
(name, description, schema, isOptional) tuples. -/
inductive DynSchema where
  | ref (target : String)
  | strType
  | doubleType
  | intType
  | boolType
  | arrayOf (elem : DynSchema) (minI maxI : Option Int)
  | anyOfStrings (name : NameV) (desc : Option String) (choices : List String)
  | anyOfSchemas (name : NameV) (desc : Option String) (choices : List DynSchema)
  | objectSchema (name : String) (desc : Option String)
      (props : List (String × Option String × DynSchema × Bool))

/-- `name ?? UUID().uuidString`. -/
def nameOrUUID : Option String → NameV
  | some s => NameV.given s
  | none => NameV.uuid

/-- The single-value-enum test on an `anyOf` branch:
`choice["enum"] as? [String]` succeeding with exactly one element. -/
def singleEnumValue (choice : List (String × Json)) : Option String :=
  match lookupStringList choice "enum" with
  | some [v] => some v
  | _ => none

/-- The `anyOf` partition loop: single-value enum branches accumulate into
`stringChoices`, every other branch is compiled (by `conv`) into
`dynamicChoices`; both keep branch order. -/
def partitionAnyOf (conv : List (String × Json) → DynSchema) :
    List (List (String × Json)) → List String × List DynSchema
  | [] => ([], [])
  | choice :: rest =>
    let (ss, ds) := partitionAnyOf conv rest
    match singleEnumValue choice with
    | some v => (v :: ss, ds)
    | none => (ss, conv choice :: ds)

/-- The `properties` loop of the `object` case: each key whose value casts to a
dictionary becomes one property (compiled by `conv` with the key as name,
optional unless listed in `required`); non-dictionary values are skipped
(`continue`). Order is the iteration order of the properties dictionary. -/
def buildProps (conv : List (String × Json) → Option String → DynSchema)
    (required : List String) :
    List (String × Json) → List (String × Option String × DynSchema × Bool)
  | [] => []
  | (propName, sub) :: rest =>
    match sub with
    | Json.obj subFields =>
      (propName, lookupString subFields "description",
        conv subFields (some propName), !(required.contains propName))
        :: buildProps conv required rest
    | _ => buildProps conv required rest

/-- `convertJSONSchemaToDynamic` from `src/apple-ai.swift`, with explicit fuel
(first argument) in place of the source's unbounded recursion; the exhaustion
branch returns `strType` and is unreachable from `convertJSONSchemaToDynamic`
below, whose fuel exceeds the recursion depth. -/
def convertF : Nat → List (String × Json) → Option String → DynSchema
  | 0, _, _ => DynSchema.strType
  | n+1, dict, name =>
    match lookupString dict "$ref" with
    | some ref => DynSchema.ref ref
    | none =>
    match lookupObjList dict "anyOf" with
    | some anyOf =>
      let (stringChoices, dynamicChoices) :=
        partitionAnyOf (fun c => convertF n c none) anyOf
      if !stringChoices.isEmpty && dynamicChoices.isEmpty then
        DynSchema.anyOfStrings (nameOrUUID name) (lookupString dict "description")
          stringChoices
      else
        let choices :=
          if dynamicChoices.isEmpty then anyOf.map (fun c => convertF n c none)
          else dynamicChoices
        DynSchema.anyOfSchemas (nameOrUUID name) (lookupString dict "description")
          choices
    | none =>
    match lookupStringList dict "enum" with
    | some enums =>
      DynSchema.anyOfStrings (nameOrUUID name) (lookupString dict "description")
        enums
    | none =>
    match lookupString dict "type" with
    | none => DynSchema.strType
    | some ty =>
      match ty with
      | "string" => DynSchema.strType
      | "number" => DynSchema.doubleType
      | "integer" => DynSchema.intType
      | "boolean" => DynSchema.boolType
      | "array" =>
        match lookupObj dict "items" with
        | some items =>
          DynSchema.arrayOf (convertF n items none)
            (lookupInt dict "minItems") (lookupInt dict "maxItems")
        | none => DynSchema.arrayOf DynSchema.strType none none
      | "object" =>
        let required := (lookupStringList dict "required").getD []
        let props :=
          match lookupObj dict "properties" with
          | some properties =>
            buildProps (fun sf nm => convertF n sf nm) required properties
          | none => []
        DynSchema.objectSchema ((name).getD "Object")
          (lookupString dict "description") props
      | _ => DynSchema.strType

/-- `convertJSONSchemaToDynamic(_:name:)`: the fuel `jsonSizeFields dict + 1`
strictly exceeds the recursion depth (every recursive call descends into a
JSON subtree of strictly smaller node count, and the fuel drops by exactly one
per level), so this equals the source's unbounded recursion. -/
def convertJSONSchemaToDynamic (dict : List (String × Json))
    (name : Option String) : DynSchema :=
  convertF (jsonSizeFields dict + 1) dict name

/-- The literal `"#/definitions/"`. -/
def definitionsPath : String := "#/definitions/"

/-- The root `$ref` name: `ref.dropFirst("#/definitions/".count)` when the ref
starts with that prefix. -/
def rootRefName (json : List (String × Json)) : Option String :=
  match lookupString json "$ref" with
  | some r =>
    if definitionsPath.data.isPrefixOf r.data then
      some (String.mk (r.data.drop definitionsPath.data.length))
    else none
  | none => none

/-- The `definitions` loop of `buildSchemasFromJson`: each entry whose value is
a dictionary — except the one matching the root `$ref` name — is compiled with
its own name into one dependency entry. -/
def depsLoop (root : Option String) :
    List (String × Json) → List DynSchema
  | [] => []
  | (name, sub) :: rest =>
    match sub with
    | Json.obj subFields =>
      if root = some name then depsLoop root rest
      else convertJSONSchemaToDynamic subFields (some name) :: depsLoop root rest
    | _ => depsLoop root rest

/-- `buildSchemasFromJson` from `src/apple-ai.swift`: compiles `definitions`
into dependencies, resolves a root-level `#/definitions/` ref by inlining that
definition as the root, and otherwise compiles the document itself as the root
(named by `title` if present). -/
def buildSchemasFromJson (json : List (String × Json)) :
    DynSchema × List DynSchema :=
  let root := rootRefName json
  let dependencies :=
    match lookupObj json "definitions" with
    | some defs => depsLoop root defs
    | none => []
  match root with
  | some nm =>
    (match lookupObj json "definitions" with
     | some defs =>
       match lookupObj defs nm with
       | some rootDef => (convertJSONSchemaToDynamic rootDef (some nm), dependencies)
       | none =>
         (convertJSONSchemaToDynamic json (lookupString json "title"), dependencies)
     | none =>
       (convertJSONSchemaToDynamic json (lookupString json "title"), dependencies))
  | none =>
    (convertJSONSchemaToDynamic json (lookupString json "title"), dependencies)

/-- The schema front end of `appleAIGenerateResponseStructured`: the parsed
document must cast to `[String: Any]`, else the call fails with
"Error: Invalid JSON Schema"; otherwise the schema pair is built (the later
`GenerationSchema` constructor belongs to the external runtime). -/
def structuredSchemaBuild (doc : Json) :
    Except String (DynSchema × List DynSchema) :=
  match doc with
  | Json.obj kvs => Except.ok (buildSchemasFromJson kvs)
  | _ => Except.error "Invalid JSON Schema"

/-- Top-level name of a dependency-candidate node, for reference resolution:
only the named initializers carry a name, and a UUID-generated name can never
be referenced. -/
def depName : DynSchema → Option String
  | DynSchema.anyOfStrings (NameV.given s) _ _ => some s
  | DynSchema.anyOfSchemas (NameV.given s) _ _ => some s
  | DynSchema.objectSchema s _ _ => some s
  | _ => none

/-!
## StreamBridge: `streamResponse` in `src/apple-ai.ts`

`streamResponse` closes over four mutable variables — `queue` (buffered string
chunks), `done`, `error`, and the pending consumer promise slot
(`pendingResolve`/`pendingReject`, modelled as the flag `pending`) — and
exposes the producer callback `handleChunk` plus the iterator methods `next`
and `return`. Each is embedded as an explicit state transformer.
-/

/-- The closure state of one `streamResponse` iterator. -/
structure BridgeState where
  queue : List String
  done : Bool
  error : Option String
  pending : Bool
  deriving DecidableEq, Repr

/-- The freshly-created iterator state: empty queue, not done, no error, no
waiting consumer. -/
def initBridge : BridgeState :=
  { queue := [], done := false, error := none, pending := false }

/-- One invocation of the native callback `handleChunk(err, chunk)`: either an
error, or a chunk that may be null (end of stream). An empty-string chunk is
treated as null by the source (`chunk == null || chunk === ""`). -/
inductive ChunkMsg where
  | errMsg (e : String)
  | chunkMsg (c : Option String)
  deriving DecidableEq, Repr

/-- What a producer invocation hands to a consumer that was already waiting on
a pending promise (if any). -/
inductive Delivered where
  | resolvedValue (s : String)
  | resolvedDone
  | rejected (e : String)
  deriving DecidableEq, Repr

/-- `handleChunk` of `streamResponse`: an error records itself, marks the
stream done and rejects a pending consumer; a null/empty chunk marks the
stream done and resolves a pending consumer with the finished result; a
content chunk resolves a pending consumer directly or is appended to the
queue. -/
def handleChunk (s : BridgeState) (m : ChunkMsg) :
    BridgeState × Option Delivered :=
  match m with
  | ChunkMsg.errMsg e =>
    if s.pending then
      ({ s with error := some e, done := true, pending := false },
        some (Delivered.rejected e))
    else
      ({ s with error := some e, done := true }, none)
  | ChunkMsg.chunkMsg c =>
    match c with
    | none =>
      if s.pending then
        ({ s with done := true, pending := false }, some Delivered.resolvedDone)
      else
        ({ s with done := true }, none)
    | some txt =>
      if txt = "" then
        if s.pending then
          ({ s with done := true, pending := false }, some Delivered.resolvedDone)
        else
          ({ s with done := true }, none)
      else
        if s.pending then
          ({ s with pending := false }, some (Delivered.resolvedValue txt))
        else
          ({ s with queue := s.queue ++ [txt] }, none)

/-- The outcome of one consumer `next()` call. -/
inductive NextOutcome where
  | value (s : String)
  | finished
  | rejected (e : String)
  | waiting
  deriving DecidableEq, Repr

/-- `next()` of the `streamResponse` iterator, in source order: a non-empty
queue is drained first; then a done stream reports finished; then a recorded
error rejects; otherwise the consumer registers a pending wait. -/
def bridgeNext (s : BridgeState) : NextOutcome × BridgeState :=
  match s.queue with
  | v :: rest => (NextOutcome.value v, { s with queue := rest })
  | [] =>
    if s.done then (NextOutcome.finished, s)
    else
      match s.error with
      | some e => (NextOutcome.rejected e, s)
      | none => (NextOutcome.waiting, { s with pending := true })

/-- `return()` of the `streamResponse` iterator (the early-termination signal
sent when the consumer stops iterating): sets `done = true` — and nothing
else — and reports finished. -/
def bridgeReturn (s : BridgeState) : NextOutcome × BridgeState :=
  (NextOutcome.finished, { s with done := true })

/-!
## Swift streaming delta loop: `appleAIGenerateResponseStream`

The Swift loop receives cumulative snapshots from the model session, keeps the
previous snapshot in `prev`, emits `delta = cumulative.dropFirst(prev.count)`
through the callback unless the delta is empty or starts with the reserved
error sentinel, and finally emits a null chunk. Text is modelled as
`List Char` (Swift's `dropFirst(n)` drops `n` characters).
-/

/-- Control-B, the reserved sentinel prefix marking an error payload
(`ERROR_SENTINEL` in `src/apple-ai.swift`). -/
def ERROR_SENTINEL : Char := '\x02'

/-- The delta-emission loop of `appleAIGenerateResponseStream`: for each
cumulative payload, the delta past the previous length is emitted unless it is
empty or begins with the sentinel; `prev` is updated to the payload either
way. Returns the list of emitted chunk texts, in order. -/
def streamChunks : List Char → List (List Char) → List (List Char)
  | _, [] => []
  | prev, cumulative :: rest =>
    let delta := cumulative.drop prev.length
    let tail := streamChunks cumulative rest
    if delta.isEmpty || delta.head? = some ERROR_SENTINEL then tail
    else delta :: tail

/-- Deltas as the specification describes them: one delta per strictly-growing
cumulative payload, whose text is the payload's suffix past the previous
length; unchanged repeats emit nothing; `prevLength` tracks the last payload's
length. (Spec-side definition, compared against `streamChunks`.) -/
def specDeltas : Nat → List (List Char) → List (List Char)
  | _, [] => []
  | prevLength, cumulative :: rest =>
    if prevLength < cumulative.length then
      cumulative.drop prevLength :: specDeltas cumulative.length rest
    else
      specDeltas cumulative.length rest

/-- A consumer-visible stream event (`Delta`/`End`; the error path of the
protocol is the sentinel-prefixed payload, not produced by the happy-path loop
modelled here). -/
inductive StreamEvt where
  | delta (text : List Char)
  | ended
  deriving DecidableEq, Repr

/-- The full event sequence of one successful `appleAIGenerateResponseStream`
run: one `Delta` per emitted chunk, then the final null chunk (`End`). -/
def appleAIStreamEvents (payloads : List (List Char)) : List StreamEvt :=
  (streamChunks [] payloads).map StreamEvt.delta ++ [StreamEvt.ended]

/-!
## Transcript converter: `convertMessagesToTranscript` in `src/apple-ai.swift`
-/

/-- A decoded chat message (`ChatMessage` in `src/apple-ai.swift`). -/
structure ChatMsg where
  role : String
  content : String
  name : Option String
  deriving DecidableEq, Repr

/-- One transcript entry, by kind, carrying its single text segment's content
(the framework's segment wrappers hold no further data the converter sets). -/
inductive TranscriptEntry where
  | instructionsEntry (content : String)
  | promptEntry (content : String)
  | responseEntry (content : String)
  deriving DecidableEq, Repr

/-- ASCII lowercasing, modelling Swift's `lowercased()` on the ASCII role
strings the protocol uses. -/
def lowerString (s : String) : String := String.mk (s.data.map Char.toLower)

/-- `convertMessagesToTranscript`: every message appends exactly one entry,
switching on the lowercased role — `"system"` becomes an instructions entry,
`"user"` a prompt entry, `"assistant"` a response entry, and anything else a
prompt entry. -/
def convertMessagesToTranscript : List ChatMsg → List TranscriptEntry
  | [] => []
  | m :: rest =>
    (match lowerString m.role with
     | "system" => TranscriptEntry.instructionsEntry m.content
     | "user" => TranscriptEntry.promptEntry m.content
     | "assistant" => TranscriptEntry.responseEntry m.content
     | _ => TranscriptEntry.promptEntry m.content)
      :: convertMessagesToTranscript rest

/-- The role table as the specification words it (case-insensitive matching
made explicit): used to compare the converter's loop against the claimed
per-message mapping. -/
def specRoleEntry (m : ChatMsg) : TranscriptEntry :=
  if lowerString m.role = "system" then TranscriptEntry.instructionsEntry m.content
  else if lowerString m.role = "user" then TranscriptEntry.promptEntry m.content
  else if lowerString m.role = "assistant" then TranscriptEntry.responseEntry m.content
  else TranscriptEntry.promptEntry m.content

/-!
## Tool-call extractor: `parseToolCalls` in `src/apple-ai-chat-model.ts`

The primary format is the regex
`TOOL_CALL:\s*(\w+)[\t ]*\n[\t ]*ARGUMENTS:\s*(\{[\s\S]*?\})(?:\n|$)` run
globally over the content. Adjacent tokens of the pattern draw from disjoint
character classes, so the only backtracking point is the lazy argument body:
the body extends until the first closing brace that is followed by a newline
or the end of input. The scanner below implements exactly that match, applied
at the leftmost possible position and restarted after each match's end, which
is the semantics of `exec` in a loop (and of `replace`) for this pattern.
`\w` is `[A-Za-z0-9_]`; `\s` is modelled by its ASCII members (the Unicode
spaces JavaScript additionally accepts cannot appear in the protocol strings).
-/

/-- `\w`. -/
def isWordChar (c : Char) : Bool := c.isAlphanum || c = '_'

/-- `\s` (ASCII members). -/
def isSpaceJS (c : Char) : Bool :=
  c = ' ' || c = '\t' || c = '\n' || c = '\r' || c = '\x0b' || c = '\x0c'

/-- `[\t ]`. -/
def isTabOrSpace (c : Char) : Bool := c = '\t' || c = ' '

/-- Match a literal character sequence, returning the remainder. -/
def stripLit : List Char → List Char → Option (List Char)
  | [], l => some l
  | _ :: _, [] => none
  | p :: ps, c :: cs => if c = p then stripLit ps cs else none

/-- The lazy argument body `[\s\S]*?\})(?:\n|$)` after the opening brace: the
body is the shortest run ending at a closing brace followed by a newline
(consumed) or the end of input; fails when no such brace exists. Returns
(body without braces, remainder after the match). -/
def bodyScan : List Char → Option (List Char × List Char)
  | [] => none
  | c :: rest =>
    if c = '\x7d' && (rest.isEmpty || rest.head? == some '\n') then
      some ([], rest.tail)
    else
      (bodyScan rest).map (fun p => (c :: p.1, p.2))

/-- One attempt of the primary tool-call pattern anchored at the start of `l`:
returns (captured name, captured argument text with its braces, remainder
after the whole match) on success. -/
def matchAt (l : List Char) : Option (List Char × List Char × List Char) :=
  match stripLit "TOOL_CALL:".data l with
  | none => none
  | some r1 =>
    let r2 := r1.dropWhile isSpaceJS
    let nm := r2.takeWhile isWordChar
    if nm.isEmpty then none
    else
      match (r2.dropWhile isWordChar).dropWhile isTabOrSpace with
      | '\n' :: r5 =>
        match stripLit "ARGUMENTS:".data (r5.dropWhile isTabOrSpace) with
        | none => none
        | some r7 =>
          match r7.dropWhile isSpaceJS with
          | '\x7b' :: r9 =>
            match bodyScan r9 with
            | none => none
            | some (body, rest) =>
              some (nm, '\x7b' :: (body ++ ['\x7d']), rest)
          | _ => none
      | _ => none

/-- The global scan: at each position try the pattern; on success record the
captures and resume after the match, else keep the character as residual text.
Fuel is decremented once per step and, since every step consumes at least one
character, `length + 1` fuel (supplied by `scanToolCalls`) never runs out. -/
def scanF : Nat → List Char → List (List Char × List Char) × List Char
  | 0, l => ([], l)
  | _+1, [] => ([], [])
  | n+1, c :: rest =>
    match matchAt (c :: rest) with
    | some (nm, args, after) =>
      let (ms, txt) := scanF n after
      ((nm, args) :: ms, txt)
    | none =>
      let (ms, txt) := scanF n rest
      (ms, c :: txt)

/-- All primary-format matches of the content, with the residual text left
after removing every match (the combination of the `exec` loop and
`content.replace(toolCallRegex, "")`). -/
def scanToolCalls (content : String) : List (List Char × List Char) × List Char :=
  scanF (content.data.length + 1) content.data

/-- JavaScript `String.trim` (ASCII whitespace members). -/
def trimJS (l : List Char) : List Char :=
  ((l.dropWhile isSpaceJS).reverse.dropWhile isSpaceJS).reverse

/-!
### `JSON.parse`, for the legacy fallback

A standard JSON recursive-descent parser over `List Char`: top-level scalars
are accepted (as in JavaScript), numbers keep their lexeme, strings decode the
JSON escapes (a lone `\uXXXX` escape becomes the code point; surrogate-pair
combining is not modelled — no claim exercises it), unescaped control
characters are rejected, and trailing garbage fails the parse.
-/

/-- JSON insignificant whitespace. -/
def isJsonWs (c : Char) : Bool :=
  c = ' ' || c = '\t' || c = '\n' || c = '\r'

/-- Single-character string escapes. -/
def escChar : Char → Option Char
  | 'n' => some '\n'
  | 't' => some '\t'
  | 'r' => some '\r'
  | 'b' => some '\x08'
  | 'f' => some '\x0c'
  | '"' => some '"'
  | '/' => some '/'
  | '\\' => some '\\'
  | _ => none

/-- Hex digit value. -/
def hexVal (c : Char) : Option Nat :=
  if c.isDigit then some (c.toNat - 48)
  else if 'a' ≤ c ∧ c ≤ 'f' then some (c.toNat - 87)
  else if 'A' ≤ c ∧ c ≤ 'F' then some (c.toNat - 55)
  else none

/-- String-body parser, after the opening quote: returns the decoded
characters and the remainder after the closing quote. -/
def parseStrChars : List Char → Option (List Char × List Char)
  | [] => none
  | c :: rest =>
    if c = '"' then some ([], rest)
    else if c = '\\' then
      match rest with
      | [] => none
      | e :: r2 =>
        match escChar e with
        | some ce => (parseStrChars r2).map (fun p => (ce :: p.1, p.2))
        | none =>
          if e = 'u' then
            match r2 with
            | h1 :: h2 :: h3 :: h4 :: r3 =>
              match hexVal h1, hexVal h2, hexVal h3, hexVal h4 with
              | some v1, some v2, some v3, some v4 =>
                (parseStrChars r3).map (fun p =>
                  (Char.ofNat (((v1 * 16 + v2) * 16 + v3) * 16 + v4) :: p.1, p.2))
              | _, _, _, _ => none
            | _ => none
          else none
    else if c.toNat < 32 then none
    else (parseStrChars rest).map (fun p => (c :: p.1, p.2))

/-- Number lexeme per the JSON grammar
`-?(0|[1-9][0-9]*)(\.[0-9]+)?([eE][+-]?[0-9]+)?`. -/
def parseNumberLexeme (l : List Char) : Option (List Char × List Char) := do
  let (sign, r1) : List Char × List Char :=
    match l with
    | '-' :: t => (['-'], t)
    | _ => ([], l)
  let (intPart, r2) ← (match r1 with
    | '0' :: t => some (['0'], t)
    | c :: t =>
      if c.isDigit then
        some (c :: t.takeWhile Char.isDigit, t.dropWhile Char.isDigit)
      else none
    | [] => none)
  let (fracPart, r3) ← (match r2 with
    | '.' :: t =>
      let ds := t.takeWhile Char.isDigit
      if ds.isEmpty then none else some ('.' :: ds, t.dropWhile Char.isDigit)
    | _ => some ([], r2))
  let (expPart, r4) ← (match r3 with
    | e :: t =>
      if e = 'e' ∨ e = 'E' then
        let (esign, t2) : List Char × List Char :=
          match t with
          | '+' :: u => (['+'], u)
          | '-' :: u => (['-'], u)
          | _ => ([], t)
        let ds := t2.takeWhile Char.isDigit
        if ds.isEmpty then none
        else some (e :: (esign ++ ds), t2.dropWhile Char.isDigit)
      else some ([], r3)
    | [] => some ([], r3))
  some (sign ++ intPart ++ fracPart ++ expPart, r4)

mutual

/-- One JSON value (fueled; `jsonParse` supplies fuel exceeding any possible
recursion depth for its input). -/
def parseVal : Nat → List Char → Option (Json × List Char)
  | 0, _ => none
  | n+1, l =>
    match l.dropWhile isJsonWs with
    | [] => none
    | c :: rest =>
      if c = 'n' then (stripLit "ull".data rest).map (fun r => (Json.null, r))
      else if c = 't' then (stripLit "rue".data rest).map (fun r => (Json.bool true, r))
      else if c = 'f' then (stripLit "alse".data rest).map (fun r => (Json.bool false, r))
      else if c = '"' then
        (parseStrChars rest).map (fun p => (Json.str (String.mk p.1), p.2))
      else if c = '[' then
        match rest.dropWhile isJsonWs with
        | ']' :: r2 => some (Json.arr [], r2)
        | _ => (parseArrItems n rest).map (fun p => (Json.arr p.1, p.2))
      else if c = '\x7b' then
        match rest.dropWhile isJsonWs with
        | '\x7d' :: r2 => some (Json.obj [], r2)
        | _ => (parseObjItems n rest).map (fun p => (Json.obj p.1, p.2))
      else
        (parseNumberLexeme (c :: rest)).map (fun p => (Json.num (String.mk p.1), p.2))

/-- Non-empty array items, comma separated, up to the closing bracket. -/
def parseArrItems : Nat → List Char → Option (List Json × List Char)
  | 0, _ => none
  | n+1, l =>
    match parseVal n l with
    | none => none
    | some (v, r) =>
      match r.dropWhile isJsonWs with
      | ',' :: r2 => (parseArrItems n r2).map (fun p => (v :: p.1, p.2))
      | ']' :: r2 => some ([v], r2)
      | _ => none

/-- Non-empty object members, comma separated, up to the closing brace. -/
def parseObjItems : Nat → List Char → Option (List (String × Json) × List Char)
  | 0, _ => none
  | n+1, l =>
    match l.dropWhile isJsonWs with
    | '"' :: r1 =>
      match parseStrChars r1 with
      | none => none
      | some (key, r2) =>
        match r2.dropWhile isJsonWs with
        | ':' :: r3 =>
          match parseVal n r3 with
          | none => none
          | some (v, r4) =>
            match r4.dropWhile isJsonWs with
            | ',' :: r5 =>
              (parseObjItems n r5).map (fun p => ((String.mk key, v) :: p.1, p.2))
            | '\x7d' :: r5 => some ([(String.mk key, v)], r5)
            | _ => none
        | _ => none
    | _ => none

end

/-- `JSON.parse`: one value, then only trailing whitespace. Returns `none`
where JavaScript throws a `SyntaxError`. -/
def jsonParse (s : String) : Option Json :=
  match parseVal (2 * s.data.length + 8) s.data with
  | some (v, rest) => if (rest.dropWhile isJsonWs).isEmpty then some v else none
  | none => none

/-!
### The extractor itself

JavaScript property access and truthiness are modelled explicitly: accessing a
property of `null` (or of `undefined`) throws — `Except.error` — while access
on any other non-object value yields `undefined` — modelled as `none`. The
whole legacy branch runs inside `try`/`catch`; a thrown error lands in the
catch-and-ignore handler and the function falls through to returning the full
content as text.
-/

/-- One tool in the catalog handed to `parseToolCalls`; the extractor reads
nothing from the entries except the catalog's length. -/
structure ToolSpec where
  name : String
  deriving DecidableEq, Repr

/-- One extracted tool call. `toolCallType` is the constant `"function"` and
is omitted; `toolCallId` is `none` when the source generates a random
`call_...` id; `toolName`/`args` are JavaScript values where `none` stands for
`undefined`. -/
structure ToolCallV where
  toolCallId : Option Json
  toolName : Option Json
  args : Option Json

/-- The return value of `parseToolCalls`: both fields optional, `none` when
the source leaves them `undefined`. -/
structure ParsedResponse where
  text : Option String
  toolCalls : Option (List ToolCallV)

/-- JavaScript property read `v.key` on a parsed JSON value: throws on `null`,
looks up on objects, yields `undefined` otherwise. -/
def jsMember : Json → String → Except Unit (Option Json)
  | Json.null, _ => Except.error ()
  | Json.obj kvs, key => Except.ok (lookupField kvs key)
  | _, _ => Except.ok none

/-- JavaScript property read on a possibly-`undefined` value
(`undefined.key` throws). -/
def jsMemberOpt : Option Json → String → Except Unit (Option Json)
  | none, _ => Except.error ()
  | some v, key => jsMember v key

/-- Zero test on a JSON number lexeme: the mantissa's digits are all zero
(the exponent cannot make a zero mantissa non-zero or vice versa). -/
def numIsZero (lexeme : String) : Bool :=
  (lexeme.data.takeWhile (fun c => c ≠ 'e' ∧ c ≠ 'E')).all
    (fun c => !c.isDigit || c = '0')

/-- JavaScript truthiness of a parsed JSON value. -/
def jsTruthy : Json → Bool
  | Json.null => false
  | Json.bool b => b
  | Json.num lexeme => !numIsZero lexeme
  | Json.str s => s != ""
  | Json.arr _ => true
  | Json.obj _ => true

/-- The mapping of one legacy `tool_calls` entry:
`{toolCallId: call.id || generated, toolName: call.function.name,
args: typeof call.function.arguments === "string"
? JSON.parse(call.function.arguments) : call.function.arguments}`,
in evaluation order; any throw aborts the whole fallback. -/
def legacyEntry (call : Json) : Except Unit ToolCallV :=
  match jsMember call "id" with
  | Except.error e => Except.error e
  | Except.ok idVal =>
    match jsMember call "function" with
    | Except.error e => Except.error e
    | Except.ok fnVal =>
      match jsMemberOpt fnVal "name" with
      | Except.error e => Except.error e
      | Except.ok nameVal =>
        match jsMemberOpt fnVal "arguments" with
        | Except.error e => Except.error e
        | Except.ok argVal =>
          match (match argVal with
                 | some (Json.str s) =>
                   match jsonParse s with
                   | some parsedArgs => Except.ok (some parsedArgs)
                   | none => (Except.error () : Except Unit (Option Json))
                 | other => Except.ok other) with
          | Except.error e => Except.error e
          | Except.ok args =>
            Except.ok
              { toolCallId :=
                  (match idVal with
                   | some v => if jsTruthy v then some v else none
                   | none => none),
                toolName := nameVal,
                args := args }

/-- `parsed.tool_calls.map(...)`: JavaScript's `map` runs the callback left to
right, and an exception from any entry propagates out of the whole `map`. -/
def mapLegacy : List Json → Except Unit (List ToolCallV)
  | [] => Except.ok []
  | c :: rest =>
    match legacyEntry c with
    | Except.error e => Except.error e
    | Except.ok v =>
      match mapLegacy rest with
      | Except.error e => Except.error e
      | Except.ok vs => Except.ok (v :: vs)

/-- `parseToolCalls(content, tools)` from `src/apple-ai-chat-model.ts`:
an empty (or absent) tool catalog short-circuits to the unchanged content;
otherwise the primary pattern is scanned — matches become tool calls with the
raw argument text kept as a string, and the cleaned residual (empty becomes
`undefined`) is the text; with no primary match, the legacy JSON fallback is
attempted, any throw or shape mismatch returning the full content as text. -/
def parseToolCalls (content : String) (tools : List ToolSpec) : ParsedResponse :=
  match tools with
  | [] => { text := some content, toolCalls := none }
  | _ :: _ =>
    let scanned := scanToolCalls content
    match scanned.1 with
    | _ :: _ =>
      let toolCalls := scanned.1.map (fun m =>
        ({ toolCallId := none, toolName := some (Json.str (String.mk m.1)),
           args := some (Json.str (String.mk m.2)) } : ToolCallV))
      let cleaned := trimJS scanned.2
      { text := if cleaned.isEmpty then none else some (String.mk cleaned),
        toolCalls := if toolCalls.isEmpty then none else some toolCalls }
    | [] =>
      match jsonParse content with
      | none => { text := some content, toolCalls := none }
      | some parsed =>
        match jsMember parsed "tool_calls" with
        | Except.error _ => { text := some content, toolCalls := none }
        | Except.ok none => { text := some content, toolCalls := none }
        | Except.ok (some tcVal) =>
          if jsTruthy tcVal then
            match tcVal with
            | Json.arr calls =>
              (match mapLegacy calls with
               | Except.ok legacy => { text := none, toolCalls := some legacy }
               | Except.error _ => { text := some content, toolCalls := none })
            | _ => { text := some content, toolCalls := none }
          else { text := some content, toolCalls := none }

/-!
## Concrete claim inputs
-/

/-- The `properties` sub-dictionary of the C3 example document
`{"type":"object","required":["a"],"properties":{"a":...,"b":...}}`
in the document's key order. -/
def c3props : List (String × Json) :=
  [("a", Json.obj [("type", Json.str "string")]),
   ("b", Json.obj [("type", Json.str "integer")])]

/-- The C3 example document as parsed into a Swift dictionary whose
`properties` dictionary iterates in order `d` (any permutation of the
document's key order is a legitimate iteration order). -/
def c3doc (d : List (String × Json)) : List (String × Json) :=
  [("type", Json.str "object"),
   ("required", Json.arr [Json.str "a"]),
   ("properties", Json.obj d)]

/-- The C3 example's `properties` dictionary iterating as `b` before `a`. -/
def c3swap : List (String × Json) :=
  [("b", Json.obj [("type", Json.str "integer")]),
   ("a", Json.obj [("type", Json.str "string")])]

/-- Names of an object node's properties, in order. -/
def propNames (props : List (String × Option String × DynSchema × Bool)) :
    List String := props.map (fun p => p.1)

/-- The two `anyOf` branches of the C4 example: a single-value enum branch and
a general (string-typed) branch. -/
def c4branches : List (List (String × Json)) :=
  [[("enum", Json.arr [Json.str "x"])],
   [("type", Json.str "string")]]

/-- The C4 example schema: `anyOf` mixing a single-value enum branch with a
general branch. -/
def c4input : List (String × Json) :=
  [("anyOf", Json.arr [Json.obj [("enum", Json.arr [Json.str "x"])],
                       Json.obj [("type", Json.str "string")]])]

/-- Whether a JSON value is an object (the `as? [String: Any]` test on a
definitions entry). -/
def isObjJson : Json → Bool
  | Json.obj _ => true
  | _ => false

/-- The C5 example document: an array whose `items` is
`$ref: "#/definitions/Foo"`, with `Foo` defined as a string schema in
`definitions`. -/
def c5doc : List (String × Json) :=
  [("type", Json.str "array"),
   ("items", Json.obj [("$ref", Json.str "#/definitions/Foo")]),
   ("definitions", Json.obj [("Foo", Json.obj [("type", Json.str "string")])])]

/-- The C6 example schema: a `$ref` pointing outside `#/definitions/`. -/
def c6refdoc : Json := Json.obj [("$ref", Json.str "#/nope")]

/-- The C6 unknown-type example schema. -/
def c6input : List (String × Json) := [("type", Json.str "quux")]

/-- The C10 witness content: a legacy-format response whose single
`tool_calls` entry carries `function.arguments` text that is not valid JSON. -/
def c10content : String :=
  "\x7b\"tool_calls\":[\x7b\"function\":\x7b\"name\":\"f\",\"arguments\":\"nope\"\x7d\x7d]\x7d"

/-- The C10 witness entry's `function` object. -/
def c10fn : Json :=
  Json.obj [("name", Json.str "f"), ("arguments", Json.str "nope")]

/-- The C10 witness `tool_calls` entry. -/
def c10entry : Json := Json.obj [("function", c10fn)]

/-- The C10 witness content, parsed. -/
def c10parsed : Json := Json.obj [("tool_calls", Json.arr [c10entry])]

/-!
## Claims
-/

/-- C1 (counterexample): the consumer cancels (`return()`) after a Delta chunk
"x" was buffered in the queue; the next `get next event` call does NOT return
finished — it returns the buffered Delta, because `next()` drains the queue
before consulting `done`, and `return()` does not clear the queue. This
falsifies the claim that after early termination every subsequent request
resolves to finished and queued events are discarded. -/
theorem c1_counterexample :
    (bridgeNext (bridgeReturn (handleChunk initBridge
        (ChunkMsg.chunkMsg (some "x"))).1).2).1 = NextOutcome.value "x" ∧
    NextOutcome.value "x" ≠ NextOutcome.finished := by
  decide

/-- C1 (amended): after the consumer signals early termination, the bridge
marks itself done; a subsequent `get next event` request returns finished
immediately only when the delivery queue is empty — a queued event buffered
before the cancellation is still delivered (the queue is drained before the
done flag is consulted), not discarded. -/
theorem c1_amended (s : BridgeState) :
    (bridgeNext (bridgeReturn s).2).1
      = match s.queue with
        | [] => NextOutcome.finished
        | v :: _ => NextOutcome.value v := by
  cases h : s.queue with
  | nil => simp [bridgeReturn, bridgeNext, h]
  | cons v rest => simp [bridgeReturn, bridgeNext, h]

/-- C2 (code behavior at the failing input): the producer reports the error
"boom" while no consumer request is pending; the state records the error, yet
the consumer's next request returns finished — a normal end-of-stream — and
not a rejection, because `handleChunk`'s error path also sets `done = true`
and `next()` consults `done` before `error`, leaving the
`if (error) return Promise.reject(error)` branch unreachable. -/
theorem c2_error_swallowed :
    (handleChunk initBridge (ChunkMsg.errMsg "boom")).1.error = some "boom" ∧
    (bridgeNext (handleChunk initBridge (ChunkMsg.errMsg "boom")).1).1
      = NextOutcome.finished ∧
    (bridgeNext (handleChunk initBridge (ChunkMsg.errMsg "boom")).1).1
      ≠ NextOutcome.rejected "boom" := by
  decide

/-- C8: with an empty tool catalog, `parseToolCalls` short-circuits before any
pattern scan and returns the input text unchanged with no tool calls. -/
theorem c8_empty_catalog (content : String) :
    parseToolCalls content [] = { text := some content, toolCalls := none } :=
  rfl

/-- Invariant of the Swift delta loop, generalized over the held previous
snapshot: under the cumulative protocol (each payload extends the previous
one; the reserved sentinel never occurs in payload text) the emitted chunks
are exactly the specification's deltas, and the previous snapshot followed by
the concatenation of all emitted chunks reconstructs the final payload. -/
theorem streamChunks_spec (payloads : List (List Char)) :
    ∀ prev : List Char,
      List.Chain' (· <+: ·) (prev :: payloads) →
      (∀ p ∈ payloads, ERROR_SENTINEL ∉ p) →
      streamChunks prev payloads = specDeltas prev.length payloads ∧
      prev ++ (streamChunks prev payloads).flatten = payloads.getLastD prev := by
  induction payloads with
  | nil =>
    intro prev _ _
    simp [streamChunks, specDeltas]
  | cons c rest ih =>
    intro prev hchain hsent
    obtain ⟨hpc, hchain'⟩ := List.chain'_cons.mp hchain
    obtain ⟨t, rfl⟩ := hpc
    have hsent' : ∀ p ∈ rest, ERROR_SENTINEL ∉ p :=
      fun p hp => hsent p (List.mem_cons_of_mem _ hp)
    have ihc := ih (prev ++ t) hchain' hsent'
    cases t with
    | nil =>
      have hdrop : (prev ++ ([] : List Char)).drop prev.length = [] :=
        List.drop_left prev []
      constructor
      · simp only [streamChunks, hdrop, List.isEmpty_nil, Bool.true_or,
          if_pos, specDeltas]
        simp only [List.append_nil] at ihc ⊢
        rw [if_neg (by simp)]
        exact ihc.1
      · simp only [streamChunks, hdrop, List.getLastD_cons]
        simp only [List.append_nil] at ihc ⊢
        simpa using ihc.2
    | cons d ds =>
      have hdrop : (prev ++ d :: ds).drop prev.length = d :: ds :=
        List.drop_left prev (d :: ds)
      have hdmem : d ∈ prev ++ d :: ds := by simp
      have hdne : d ≠ ERROR_SENTINEL := by
        intro h
        exact hsent (prev ++ d :: ds) (List.mem_cons_self _ _) (h ▸ hdmem)
      constructor
      · simp only [streamChunks, hdrop, specDeltas]
        rw [if_neg (by simp [hdne]), if_pos (by simp)]
        rw [ihc.1]
      · simp only [streamChunks, hdrop, List.getLastD_cons]
        rw [if_neg (by simp [hdne])]
        simp only [List.flatten_cons, ← List.append_assoc]
        exact ihc.2

/-- C7: for every cumulative payload sequence (each payload a prefix-extension
of the previous, sentinel-free), the Swift stream emits exactly one Delta per
strictly-growing payload whose text is the new suffix past the previous
length (the specification's deltas, `specDeltas`), emits nothing for an
unchanged repeat, the concatenation of all Delta texts equals the final
cumulative payload, and the event sequence is those Deltas followed by End. -/
theorem c7_cumulative_deltas (payloads : List (List Char))
    (hchain : List.Chain' (· <+: ·) payloads)
    (hsent : ∀ p ∈ payloads, ERROR_SENTINEL ∉ p) :
    streamChunks [] payloads = specDeltas 0 payloads ∧
    (streamChunks [] payloads).flatten = payloads.getLastD [] ∧
    appleAIStreamEvents payloads
      = (specDeltas 0 payloads).map StreamEvt.delta ++ [StreamEvt.ended] := by
  have hchain0 : List.Chain' (· <+: ·) ([] :: payloads) :=
    List.chain'_cons'.mpr ⟨fun y _ => List.nil_prefix, hchain⟩
  obtain ⟨h1, h2⟩ := streamChunks_spec payloads [] hchain0 hsent
  refine ⟨by simpa using h1, by simpa using h2, ?_⟩
  unfold appleAIStreamEvents
  rw [h1]
  simp

/-- C7 witness: the payload sequence "Hel", "Hello", "Hello world" satisfies
the protocol hypotheses, yields Deltas "Hel", "lo", " world" (then End), and
their concatenation is "Hello world". -/
theorem c7_witness :
    (List.Chain' (· <+: ·)
        (["Hel".data, "Hello".data, "Hello world".data] : List (List Char)) ∧
      ∀ p ∈ (["Hel".data, "Hello".data, "Hello world".data] : List (List Char)),
        ERROR_SENTINEL ∉ p) ∧
    (streamChunks [] ["Hel".data, "Hello".data, "Hello world".data]
        = specDeltas 0 ["Hel".data, "Hello".data, "Hello world".data] ∧
      (streamChunks [] ["Hel".data, "Hello".data, "Hello world".data]).flatten
        = (["Hel".data, "Hello".data, "Hello world".data] :
            List (List Char)).getLastD [] ∧
      appleAIStreamEvents ["Hel".data, "Hello".data, "Hello world".data]
        = (specDeltas 0 ["Hel".data, "Hello".data, "Hello world".data]).map
            StreamEvt.delta ++ [StreamEvt.ended]) :=
  have hchain : List.Chain' (· <+: ·)
      (["Hel".data, "Hello".data, "Hello world".data] : List (List Char)) :=
    List.chain'_cons.mpr ⟨⟨"lo".data, rfl⟩,
      List.chain'_cons.mpr ⟨⟨" world".data, rfl⟩, List.chain'_singleton _⟩⟩
  have hsent : ∀ p ∈ (["Hel".data, "Hello".data, "Hello world".data] :
      List (List Char)), ERROR_SENTINEL ∉ p := by decide
  ⟨⟨hchain, hsent⟩, c7_cumulative_deltas _ hchain hsent⟩

/-- C9 (counterexample): the role string "SYSTEM" is not one of the literal
roles `system`/`user`/`assistant`, so under the claim it must become a prompt
entry; the converter lowercases the role first and instead produces an
instructions entry. -/
theorem c9_counterexample :
    convertMessagesToTranscript
        [{ role := "SYSTEM", content := "hi", name := none }]
      = [TranscriptEntry.instructionsEntry "hi"] ∧
    "SYSTEM" ∉ (["system", "user", "assistant"] : List String) ∧
    TranscriptEntry.instructionsEntry "hi" ≠ TranscriptEntry.promptEntry "hi" := by
  decide

/-- C9 (amended): the transcript converter emits exactly one entry per input
message, in input order, chosen by the lowercased role — case-insensitively,
`system` maps to an instructions entry, `user` to a prompt entry, `assistant`
to a response entry, and every other role to a prompt entry (no message is
ever dropped). `specRoleEntry` is that table as the amended claim words it. -/
theorem c9_amended (msgs : List ChatMsg) :
    (convertMessagesToTranscript msgs).length = msgs.length ∧
    ∀ i : Nat, (convertMessagesToTranscript msgs)[i]?
      = (msgs[i]?).map specRoleEntry := by
  induction msgs with
  | nil => exact ⟨rfl, fun i => by cases i <;> rfl⟩
  | cons m rest ih =>
    refine ⟨by simpa [convertMessagesToTranscript] using ih.1, ?_⟩
    intro i
    cases i with
    | succ j =>
      simpa [convertMessagesToTranscript] using ih.2 j
    | zero =>
      simp only [convertMessagesToTranscript, List.getElem?_cons_zero,
        Option.map_some']
      congr 1
      unfold specRoleEntry
      split <;> simp_all

/-- The properties loop is a `filterMap` over the dictionary's iteration
order. -/
theorem buildProps_eq_filterMap
    (conv : List (String × Json) → Option String → DynSchema)
    (required : List String) (l : List (String × Json)) :
    buildProps conv required l
      = l.filterMap (fun p =>
          match p.2 with
          | Json.obj subFields =>
            some (p.1, lookupString subFields "description",
              conv subFields (some p.1), !(required.contains p.1))
          | _ => none) := by
  induction l with
  | nil => rfl
  | cons p rest ih =>
    cases p with
    | mk k v => cases v <;> simp [buildProps, List.filterMap_cons, ih]

/-- C3 (counterexample): Swift's `[String: Any]` dictionary (the result of
`JSONSerialization`) has an unspecified iteration order, so the C3 example
document may present its `properties` in the order `b`, `a` — a permutation
of the document's key order. Compiling that parse yields the object's
properties in order `[b, a]`, not the claimed `[a, b]`: the compiler's
property order is the dictionary's iteration order, and the claim's
document-key-order guarantee fails. -/
theorem c3_counterexample :
    c3swap.Perm c3props ∧
    convertJSONSchemaToDynamic (c3doc c3swap) none
      = DynSchema.objectSchema "Object" none
          [("b", none, DynSchema.intType, true),
           ("a", none, DynSchema.strType, false)] ∧
    propNames [("b", (none : Option String), DynSchema.intType, true),
               ("a", none, DynSchema.strType, false)] = ["b", "a"] ∧
    ["b", "a"] ≠ ["a", "b"] :=
  ⟨List.Perm.swap _ _ _, rfl, rfl, by decide⟩

/-- C3 (amended): for every iteration order `d` of the example document's
`properties` dictionary (any permutation of the document's key order),
compiling yields an Object node whose properties are, up to that unspecified
order, exactly `a: String optional=false` and `b: Integer optional=true` —
each property optional exactly when its name is absent from `required`; the
claimed document-key ordering is not guaranteed. -/
theorem c3_amended (n : Nat) (d : List (String × Json)) (hd : d.Perm c3props) :
    ∃ ps, convertF (n + 2) (c3doc d) none
        = DynSchema.objectSchema "Object" none ps ∧
      ps.Perm [("a", none, DynSchema.strType, false),
               ("b", none, DynSchema.intType, true)] := by
  refine ⟨buildProps (fun sf nm => convertF (n + 1) sf nm) ["a"] d, rfl, ?_⟩
  rw [buildProps_eq_filterMap]
  have hperm := List.Perm.filterMap (fun p : String × Json =>
    match p.2 with
    | Json.obj subFields =>
      some (p.1, lookupString subFields "description",
        convertF (n + 1) subFields (some p.1), !((["a"] : List String).contains p.1))
    | _ => none) hd
  exact hperm.trans (by rfl)

/-- C3 witness: the amended statement applied at the swapped iteration order. -/
theorem c3_amended_witness :
    c3swap.Perm c3props ∧
    ∃ ps, convertF 2 (c3doc c3swap) none
        = DynSchema.objectSchema "Object" none ps ∧
      ps.Perm [("a", none, DynSchema.strType, false),
               ("b", none, DynSchema.intType, true)] :=
  ⟨List.Perm.swap _ _ _, c3_amended 0 c3swap (List.Perm.swap _ _ _)⟩

/-- The `anyOf` partition loop, characterized: the string choices are the
single-value enum branches' values, the dynamic choices the compiled
non-single-enum branches, both in branch order. -/
theorem partitionAnyOf_eq (conv : List (String × Json) → DynSchema)
    (l : List (List (String × Json))) :
    partitionAnyOf conv l
      = (l.filterMap singleEnumValue,
         (l.filter (fun b => (singleEnumValue b).isNone)).map conv) := by
  induction l with
  | nil => rfl
  | cons choice rest ih =>
    simp only [partitionAnyOf, ih]
    cases h : singleEnumValue choice <;>
      simp [List.filterMap_cons, List.filter_cons, h]

/-- C4 (counterexample): the C4 example's `anyOf` has two branches, one of
them a single-value enum; the compiled union has a single variant — the
compiled general branch — and no variant for the enum branch `"x"`, so the
claim that the union's variants include every branch (enum branches as
literal string nodes) fails. -/
theorem c4_counterexample :
    convertJSONSchemaToDynamic c4input none
      = DynSchema.anyOfSchemas NameV.uuid none [DynSchema.strType] ∧
    lookupObjList c4input "anyOf"
      = some [[("enum", Json.arr [Json.str "x"])],
              [("type", Json.str "string")]] :=
  ⟨rfl, rfl⟩

/-- C4 (amended): when an `anyOf` schema has at least one branch that is not a
single-value enum branch, compilation emits a Union whose variants are
exactly the non-single-enum branches compiled recursively, in branch order —
any single-value enum branches present are dropped from the union (they are
diverted into the string-choice accumulator, which the mixed case discards). -/
theorem c4_amended (n : Nat) (kvs : List (String × Json)) (name : Option String)
    (anyOf : List (List (String × Json)))
    (href : lookupString kvs "$ref" = none)
    (hany : lookupObjList kvs "anyOf" = some anyOf)
    (hmix : ∃ b ∈ anyOf, singleEnumValue b = none) :
    convertF (n + 1) kvs name
      = DynSchema.anyOfSchemas (nameOrUUID name) (lookupString kvs "description")
          ((anyOf.filter (fun b => (singleEnumValue b).isNone)).map
            (fun b => convertF n b none)) := by
  obtain ⟨b, hb, hbnone⟩ := hmix
  have hfilter : b ∈ anyOf.filter (fun c => (singleEnumValue c).isNone) :=
    List.mem_filter.mpr ⟨hb, by simp [hbnone]⟩
  have hne : (anyOf.filter (fun c => (singleEnumValue c).isNone)).map
      (fun c => convertF n c none) ≠ [] := by
    have h0 : anyOf.filter (fun c => (singleEnumValue c).isNone) ≠ [] :=
      List.ne_nil_of_mem hfilter
    simpa using h0
  simp only [convertF, href, hany, partitionAnyOf_eq]
  simp [hne]

/-- C4 witness: the amended statement applied to the C4 example. -/
theorem c4_amended_witness :
    (lookupString c4input "$ref" = none ∧
     lookupObjList c4input "anyOf" = some c4branches ∧
     ∃ b ∈ c4branches, singleEnumValue b = none) ∧
    convertF 6 c4input none
      = DynSchema.anyOfSchemas (nameOrUUID none)
          (lookupString c4input "description")
          ((c4branches.filter (fun b => (singleEnumValue b).isNone)).map
            (fun b => convertF 5 b none)) :=
  have hmem : [("type", Json.str "string")] ∈ c4branches :=
    List.Mem.tail _ (List.Mem.head _)
  ⟨⟨rfl, rfl, ⟨[("type", Json.str "string")], hmem, rfl⟩⟩,
   c4_amended 5 c4input none c4branches rfl rfl
     ⟨[("type", Json.str "string")], hmem, rfl⟩⟩

/-- C5 (counterexample): compiling the C5 example produces a root containing
`Reference{"#/definitions/Foo"}` — the raw `$ref` string — while the single
dependency entry is the compiled `Foo` definition, an *unnamed* String node
(the compiler's scalar cases drop the passed name). The dependency set
therefore contains no entry named `#/definitions/Foo` (indeed no named entry
at all), so the reference does not resolve by name to any dependency entry. -/
theorem c5_counterexample :
    buildSchemasFromJson c5doc
      = (DynSchema.arrayOf (DynSchema.ref "#/definitions/Foo") none none,
         [DynSchema.strType]) ∧
    [DynSchema.strType].filterMap depName = [] ∧
    "#/definitions/Foo" ∉ [DynSchema.strType].filterMap depName :=
  ⟨rfl, rfl, by simp [depName]⟩

/-- C5 (amended): references produced from a nested `$ref` carry the full
reference string while dependency entries are compiled under the bare
definition name (and scalar- or array-shaped definitions lose even that), so
references need not resolve into the dependency set; what does hold is the
claim's multiplicity part, restricted to the surviving entries: every
`definitions` entry whose value is an object — except the one matching a
root-level `$ref`, which is inlined as the root — becomes exactly one
dependency entry. -/
theorem c5_amended (json : List (String × Json)) :
    (buildSchemasFromJson json).2.length
      = (((lookupObj json "definitions").getD []).filter
          (fun nv => isObjJson nv.2 && !(rootRefName json == some nv.1))).length := by
  have hdeps : (buildSchemasFromJson json).2
      = depsLoop (rootRefName json) ((lookupObj json "definitions").getD []) := by
    unfold buildSchemasFromJson
    cases hdefs : lookupObj json "definitions" with
    | none => cases hroot : rootRefName json <;> simp [hdefs, hroot, depsLoop]
    | some defs =>
      cases hroot : rootRefName json with
      | none => simp [hdefs, hroot]
      | some nm => cases hrd : lookupObj defs nm <;> simp [hdefs, hroot, hrd]
  rw [hdeps]
  generalize rootRefName json = root
  generalize (lookupObj json "definitions").getD [] = defs
  induction defs with
  | nil => rfl
  | cons nv rest ih =>
    obtain ⟨nm, sub⟩ := nv
    cases sub with
    | obj subFields =>
      by_cases h : root = some nm
      · subst h
        simp [depsLoop, List.filter_cons, isObjJson, ih]
      · simp [depsLoop, h, List.filter_cons, isObjJson, ih]
    | null => simp [depsLoop, List.filter_cons, isObjJson, ih]
    | bool b => simp [depsLoop, List.filter_cons, isObjJson, ih]
    | num s => simp [depsLoop, List.filter_cons, isObjJson, ih]
    | str s => simp [depsLoop, List.filter_cons, isObjJson, ih]
    | arr es => simp [depsLoop, List.filter_cons, isObjJson, ih]

/-- C6 (counterexample): a document whose `$ref` points outside
`#/definitions/` does NOT fail with InvalidSchema — the schema front end
accepts it (the root is a JSON object) and compilation succeeds, producing a
dangling raw Reference node. The claim's "fails exactly when ... `$ref`
points outside `#/definitions/`" is false. -/
theorem c6_counterexample :
    structuredSchemaBuild c6refdoc
      = Except.ok (DynSchema.ref "#/nope", ([] : List DynSchema)) ∧
    structuredSchemaBuild c6refdoc ≠ Except.error "Invalid JSON Schema" :=
  ⟨rfl, fun h => Except.noConfusion h⟩

/-- C6 (amended): schema compilation never throws for unknown or absent
`type` values — such schemas degrade to an unconstrained String node — and
the front end fails with InvalidSchema exactly when the document is not a
JSON object at the root; a `$ref` outside `#/definitions/` is not rejected
(it compiles to a dangling Reference; any later failure belongs to the
external runtime's schema constructor). -/
theorem c6_amended (n : Nat) (kvs : List (String × Json)) (name : Option String)
    (href : lookupString kvs "$ref" = none)
    (hany : lookupObjList kvs "anyOf" = none)
    (henum : lookupStringList kvs "enum" = none)
    (hty : ∀ ty, lookupString kvs "type" = some ty →
      ty ∉ (["string", "number", "integer", "boolean", "array", "object"] :
        List String)) :
    convertF (n + 1) kvs name = DynSchema.strType ∧
    ∀ doc : Json, structuredSchemaBuild doc = Except.error "Invalid JSON Schema"
      ↔ ∀ fields, doc ≠ Json.obj fields := by
  constructor
  · simp only [convertF, href, hany, henum]
    cases hl : lookupString kvs "type" with
    | none => rfl
    | some ty =>
      have hnot := hty ty hl
      split <;> simp_all
  · intro doc
    cases doc <;> simp [structuredSchemaBuild]

/-- C6 witness: the amended statement applied to the unknown-type example
`{"type":"quux"}`. -/
theorem c6_amended_witness :
    (lookupString c6input "$ref" = none ∧
     lookupObjList c6input "anyOf" = none ∧
     lookupStringList c6input "enum" = none ∧
     ∀ ty, lookupString c6input "type" = some ty →
       ty ∉ (["string", "number", "integer", "boolean", "array", "object"] :
         List String)) ∧
    (convertF 1 c6input none = DynSchema.strType ∧
     ∀ doc : Json, structuredSchemaBuild doc = Except.error "Invalid JSON Schema"
       ↔ ∀ fields, doc ≠ Json.obj fields) :=
  have hty : ∀ ty, lookupString c6input "type" = some ty →
      ty ∉ (["string", "number", "integer", "boolean", "array", "object"] :
        List String) := by
    intro ty h
    have hq : "quux" = ty := Option.some.inj h
    subst hq
    decide
  ⟨⟨rfl, rfl, rfl, hty⟩, c6_amended 0 c6input none rfl rfl rfl hty⟩

/-- A legacy entry whose `function.arguments` is a string that fails
`JSON.parse` makes the per-entry mapping throw. -/
theorem legacyEntry_bad_args (entry fnObj : Json) (argStr : String)
    (hfn : jsMember entry "function" = Except.ok (some fnObj))
    (hargs : jsMember fnObj "arguments" = Except.ok (some (Json.str argStr)))
    (hbad : jsonParse argStr = none) :
    legacyEntry entry = Except.error () := by
  cases entry with
  | null => exact absurd hfn (by simp [jsMember])
  | bool b => simp [jsMember] at hfn
  | num s => simp [jsMember] at hfn
  | str s => simp [jsMember] at hfn
  | arr es => simp [jsMember] at hfn
  | obj kvs =>
    have hfn' : lookupField kvs "function" = some fnObj := by
      simpa [jsMember] using hfn
    cases fnObj with
    | null => simp [jsMember] at hargs
    | bool b => simp [jsMember] at hargs
    | num s => simp [jsMember] at hargs
    | str s => simp [jsMember] at hargs
    | arr es => simp [jsMember] at hargs
    | obj fkvs =>
      have hargs' : lookupField fkvs "arguments" = some (Json.str argStr) := by
        simpa [jsMember] using hargs
      simp [legacyEntry, jsMember, jsMemberOpt, hfn', hargs', hbad,
        Except.bind]

/-- If any entry of the legacy `tool_calls` array throws, the whole `map`
throws. -/
theorem mapLegacy_error_of_mem (calls : List Json) (entry : Json)
    (he : entry ∈ calls) (herr : legacyEntry entry = Except.error ()) :
    mapLegacy calls = Except.error () := by
  induction calls with
  | nil => cases he
  | cons c rest ih =>
    cases he with
    | head => simp [mapLegacy, herr]
    | tail _ hmem =>
      cases hc : legacyEntry c with
      | error e => cases e; simp [mapLegacy, hc]
      | ok v => simp [mapLegacy, hc, ih hmem]

/-- C10: with a non-empty catalog and no primary-format match, if the content
parses as JSON with a `tool_calls` array in which some entry's
`function.arguments` is a string that is not valid JSON, the extractor
returns the entire input as residual text with zero tool calls — the legacy
fallback is all-or-nothing and never yields a partial list. -/
theorem c10_legacy_all_or_nothing
    (content : String) (tools : List ToolSpec)
    (htools : tools ≠ [])
    (hscan : (scanToolCalls content).1 = [])
    (parsed : Json) (hp : jsonParse content = some parsed)
    (calls : List Json)
    (htc : jsMember parsed "tool_calls" = Except.ok (some (Json.arr calls)))
    (entry fnObj : Json) (argStr : String)
    (he : entry ∈ calls)
    (hfn : jsMember entry "function" = Except.ok (some fnObj))
    (hargs : jsMember fnObj "arguments" = Except.ok (some (Json.str argStr)))
    (hbad : jsonParse argStr = none) :
    parseToolCalls content tools = { text := some content, toolCalls := none } := by
  have herr := legacyEntry_bad_args entry fnObj argStr hfn hargs hbad
  have hmap := mapLegacy_error_of_mem calls entry he herr
  cases tools with
  | nil => exact absurd rfl htools
  | cons t ts =>
    simp only [parseToolCalls, hscan, hp, htc, hmap, jsTruthy]
    simp

/-- C10 witness: the all-or-nothing statement applied to a concrete
legacy-format content whose only entry has non-JSON arguments `"nope"`. -/
theorem c10_witness :
    (([{ name := "weather" }] : List ToolSpec) ≠ [] ∧
     (scanToolCalls c10content).1 = [] ∧
     jsonParse c10content = some c10parsed ∧
     jsMember c10parsed "tool_calls" = Except.ok (some (Json.arr [c10entry])) ∧
     c10entry ∈ [c10entry] ∧
     jsMember c10entry "function" = Except.ok (some c10fn) ∧
     jsMember c10fn "arguments" = Except.ok (some (Json.str "nope")) ∧
     jsonParse "nope" = none) ∧
    parseToolCalls c10content [{ name := "weather" }]
      = { text := some c10content, toolCalls := none } :=
  ⟨⟨List.cons_ne_nil _ _, rfl, rfl, rfl, List.Mem.head _, rfl, rfl, rfl⟩,
   c10_legacy_all_or_nothing c10content [{ name := "weather" }]
     (List.cons_ne_nil _ _) rfl c10parsed rfl [c10entry] rfl
     c10entry c10fn "nope" (List.Mem.head _) rfl rfl rfl⟩
